import Mathlib

/-!
Verification of the `askama-enum` derive macro (`src/src/lib.rs`) against its
natural-language specification.  The proc-macro input (a `syn::DeriveInput`)
and the generated token stream are shallowly embedded as inductive data, and
the whole transformation `derive_enum_template` is translated into a pure
Lean function.  Spans of syntax nodes are modelled as natural numbers and
original Rust field types as opaque strings; lifetimes are modelled by their
identifier without the leading quote sigil.
-/

namespace AskamaEnum

/-! ### Decimal rendering

The macro builds identifiers with `format!("_{}_{}_{}", enum, index, variant)`
and `format!("_{}", index)`; `{}` on a `usize` prints the decimal digits with
no sign and no leading zeros.  `toDecCore` mirrors the standard fuelled
digit-accumulator construction of that decimal string. -/

def toDecCore : Nat → Nat → List Char → List Char
  | 0, _, acc => acc
  | fuel + 1, n, acc =>
    let d := Nat.digitChar (n % 10)
    if n / 10 = 0 then d :: acc else toDecCore fuel (n / 10) (d :: acc)

def natDecimalDigits (n : Nat) : List Char := toDecCore (n + 1) n []

/-- Numeric value of a decimal digit character (proof tool only). -/
def charDigitVal (c : Char) : Nat := c.toNat - 48

/-- Value of a digit string, most significant digit first (proof tool only). -/
def fromDigits (l : List Char) : Nat := l.foldl (fun a c => 10 * a + charDigitVal c) 0

def natToDecimal (n : Nat) : String := String.mk (natDecimalDigits n)

/-- `format!("_{}_{}_{}", enum_ident, index, variant_ident)` — the name of the
auxiliary struct generated for one enum variant (lib.rs lines 216 and 364). -/
def variantAuxName (e : String) (i : Nat) (v : String) : String :=
  "_" ++ e ++ "_" ++ natToDecimal i ++ "_" ++ v

/-- `format!("_{}", index)` — the temporary binding introduced for the field
at position `index` inside a generated match arm (lib.rs lines 226 and 274). -/
def tmpBindName (i : Nat) : String := "_" ++ natToDecimal i

/-! ### Input data model (the relevant parts of `syn`) -/

/-- One attribute of the input.  `parsesAsMetaList` models whether
`attr.parse_meta()` succeeds with a `syn::Meta::List`; `path` is the
rendering of `meta_list.path`; `pathSpan` is the span of that path (error
spans point there); `payload` is the opaque argument list of the
annotation, which the macro copies verbatim and never interprets. -/
structure Attr where
  parsesAsMetaList : Bool
  path : String
  pathSpan : Nat
  payload : String
deriving DecidableEq

/-- The check on lib.rs lines 110-114 and 371-375: the attribute parses as a
meta list and its path is the single identifier `template`. -/
def isTemplateAttr (a : Attr) : Bool := a.parsesAsMetaList && a.path == "template"

inductive GenericParam
  | lifetimeP (name : String)
  | typeP (name : String)
  | constP (name : String)
deriving DecidableEq

def gpName : GenericParam → String
  | .lifetimeP n => n
  | .typeP n => n
  | .constP n => n

structure NamedField where
  name : String
  ty : String
deriving DecidableEq

inductive VFields
  | namedF (fields : List NamedField)
  | unnamedF (tys : List String)
  | unitF
deriving DecidableEq

structure Variant where
  ident : String
  identSpan : Nat
  attrs : List Attr
  fields : VFields
deriving DecidableEq

inductive Data
  | enumData (variants : List Variant)
  | structData (structTokenSpan : Nat)
  | unionData (unionTokenSpan : Nat)
deriving DecidableEq

structure DeriveInput where
  ident : String
  generics : List GenericParam
  attrs : List Attr
  data : Data
deriving DecidableEq

/-! ### Output model (the generated token stream) -/

structure Diag where
  span : Nat
  msg : String
deriving DecidableEq

def enumOnlyMsg : String := "#[derive(EnumTemplate)] can only be used with enums"

def dupTypeMsg : String := "cannot have more than one #[template] attribute for a type"

def dupVarMsg : String := "cannot have more than one #[template] attribute for a variant"

def needTemplateMsg : String := "need a #[template] attribute"

/-- A rewritten field type of an auxiliary struct: either a reference
`&F` under the lifetime `lt` to an original field type `F`, or the phantom marker type
`PhantomData` of a reference, under that lifetime, to the enum with its own generics (lib.rs lines 395-397, 405-410). -/
inductive RTy
  | ref (lt : String) (orig : String)
  | phantom (lt : String) (enumName : String) (gens : List GenericParam)
deriving DecidableEq

inductive AuxFields
  | named (fields : List (String × RTy))
  | unnamed (tys : List RTy)
deriving DecidableEq

/-- One generated auxiliary struct definition (the `syn::DeriveInput` built
in `make_variant_definitions`, lib.rs lines 467-485). -/
structure AuxDef where
  ident : String
  lifetime : String
  generics : List GenericParam
  derives : List String
  templateMeta : Attr
  fields : AuxFields
deriving DecidableEq

/-- Argument of a generated constructor call: a bound variable or
`::std::marker::PhantomData`. -/
inductive ArgE
  | var (s : String)
  | phantomData
deriving DecidableEq

/-- Construction of the auxiliary value inside a match arm: struct syntax
with named fields, or tuple-call syntax.  `generics` is the turbofish
argument list attached to the path. -/
inductive CtorE
  | structC (path : String) (generics : List String) (fields : List (String × ArgE))
  | callC (path : String) (generics : List String) (args : List ArgE)
deriving DecidableEq

/-- The body of a match arm: `<recv>.<meth>(<args>)` (lib.rs lines 323-334). -/
structure CallBody where
  recv : CtorE
  meth : String
  args : List ArgE
deriving DecidableEq

inductive RPat
  | wild
  | structP (path : String) (fields : List (String × String))
  | tupleP (path : String) (binds : List String)
  | pathP (path : String)
deriving DecidableEq

structure Arm where
  pat : RPat
  body : CallBody
deriving DecidableEq

structure MatchExpr where
  scrutinee : String
  arms : List Arm
deriving DecidableEq

/-- The generated `Display::fmt` body (lib.rs lines 188-191):
`askama::Template::render_into(self, f).map_err(|_| ::std::fmt::Error {})`. -/
structure DisplayBody where
  callee : String
  selfArg : String
  sinkArg : String
  mapErrToUnitFmtError : Bool
deriving DecidableEq

/-- Runtime semantics of the `.map_err(|_| ::std::fmt::Error {})` adapter:
`fmt::Error` carries no payload, so it is modelled as `Unit`. -/
def displayMapErr {ε : Type} : Except ε Unit → Except Unit Unit
  | .ok u => .ok u
  | .error _ => .error ()

structure Generated where
  enumName : String
  renderMatch : MatchExpr
  renderIntoMatch : MatchExpr
  extensionSource : String
  sizeHintSource : String
  mimeTypeSource : String
  staticTyGenerics : List String
  auxDefs : List AuxDef
  display : DisplayBody
deriving DecidableEq

/-- Result of one macro invocation: generated code, a compile error emitted
via `syn::Error::into_compile_error`, or a panic of the macro itself. -/
inductive MacroResult
  | ok (g : Generated)
  | err (d : Diag)
  | indexOutOfBounds
deriving DecidableEq

/-! ### The transformer, translated from lib.rs -/

/-- The attribute scan loops of lib.rs lines 108-123 (union scope) and
369-384 (variant scope): remember the first `#[template]` meta-list
attribute, fail at the second one with the scope-specific message. -/
def ftmGo (dupMsg : String) : Option Attr → List Attr → Except Diag (Option Attr)
  | acc, [] => .ok acc
  | acc, a :: rest =>
    if isTemplateAttr a then
      match acc with
      | some _ => .error ⟨a.pathSpan, dupMsg⟩
      | none => ftmGo dupMsg (some a) rest
    else ftmGo dupMsg acc rest

def scanTemplateAttrs (dupMsg : String) (attrs : List Attr) : Except Diag (Option Attr) :=
  ftmGo dupMsg none attrs

/-- The auxiliary struct built for one variant (lib.rs lines 393-485):
every field type `F` becomes a reference `&F` under the per-variant lifetime, a
phantom field is appended (named `variant_name` for named-field variants),
a unit variant becomes a one-field tuple struct, and the resolved
`#[template]` attribute plus the derive list are attached. -/
def mkAuxDef (e : String) (gens : List GenericParam) (i : Nat) (v : Variant)
    (meta : Attr) : AuxDef :=
  let name := variantAuxName e i v.ident
  let ph := RTy.phantom name e gens
  { ident := name
    lifetime := name
    generics := gens ++ [.lifetimeP name]
    derives := ["askama::Template", "Clone", "Copy", "Debug"]
    templateMeta := meta
    fields :=
      match v.fields with
      | .namedF fs => .named ((fs.map fun f => (f.name, RTy.ref name f.ty)) ++ [(name, ph)])
      | .unnamedF ts => .unnamed ((ts.map fun t => RTy.ref name t) ++ [ph])
      | .unitF => .unnamed [ph] }

/-- The body of `make_variant_definitions` (lib.rs lines 354-488), with the
`&mut default_variant_name` out-parameter made explicit: `i` is the running
variant index and `dflt` the default variant name found so far.  The
enumerate-map-collect over variants short-circuits at the first error. -/
def mvdGo (e : String) (gens : List GenericParam) (global : Option Attr) :
    Nat → Option String → List Variant → Except Diag (List AuxDef × Option String)
  | _, dflt, [] => .ok ([], dflt)
  | i, dflt, v :: vs =>
    match scanTemplateAttrs dupVarMsg v.attrs with
    | .error d => .error d
    | .ok localMeta =>
      let dflt2 := if localMeta.isNone && dflt.isNone
        then some (variantAuxName e i v.ident) else dflt
      match localMeta.or global with
      | none => .error ⟨v.identSpan, needTemplateMsg⟩
      | some meta =>
        match mvdGo e gens global (i + 1) dflt2 vs with
        | .error d => .error d
        | .ok (rest, dOut) => .ok (mkAuxDef e gens i v meta :: rest, dOut)

/-- The turbofish generic list the match arms attach to the auxiliary type
path (lib.rs lines 204-207): the enum generics with one extra anonymous
lifetime pushed at the end, printed as a turbofish. -/
def instTurbofish (gens : List GenericParam) : List String :=
  (gens ++ [GenericParam.lifetimeP "_"]).map gpName

/-- Positional enumeration, modelling `.iter().enumerate()`. -/
def enumFromL {α : Type} : Nat → List α → List (Nat × α)
  | _, [] => []
  | k, a :: l => (k, a) :: enumFromL (k + 1) l

/-- One match arm of `make_render_impl` (lib.rs lines 213-342): destructure
the variant fields into `_0`, `_1`, … , build the auxiliary value from those
bindings plus `PhantomData`, and call the entry-point method on it. -/
def make_arm (auxN : String) (instG : List String) (meth : String)
    (args : List ArgE) (v : Variant) : Arm :=
  match v.fields with
  | .namedF fs =>
    let tmps := (List.range fs.length).map tmpBindName
    { pat := .structP ("Self::" ++ v.ident) ((tmps.zip fs).map fun p => (p.2.name, p.1))
      body :=
        { recv := .structC auxN instG
            (((tmps.zip fs).map fun p => (p.2.name, ArgE.var p.1)) ++ [(auxN, ArgE.phantomData)])
          meth := meth
          args := args } }
  | .unnamedF ts =>
    let tmps := (List.range ts.length).map tmpBindName
    { pat := .tupleP ("Self::" ++ v.ident) tmps
      body :=
        { recv := .callC auxN instG ((tmps.map fun t => ArgE.var t) ++ [ArgE.phantomData])
          meth := meth
          args := args } }
  | .unitF =>
    { pat := .pathP ("Self::" ++ v.ident)
      body := { recv := .callC auxN instG [ArgE.phantomData], meth := meth, args := args } }

/-- `make_render_impl` (lib.rs lines 198-352): one `match self { … }` with
one arm per declared variant, in declaration order. -/
def make_render_impl (e : String) (gens : List GenericParam) (vs : List Variant)
    (meth : String) (args : List ArgE) : MatchExpr :=
  { scrutinee := "self"
    arms := (enumFromL 0 vs).map fun p =>
      make_arm (variantAuxName e p.1 p.2.ident) (instTurbofish gens) meth args p.2 }

/-- The `static_ty_generics` loop (lib.rs lines 142-154): collect the idents
of type and const parameters, skipping lifetimes, with nothing between
consecutive idents. -/
def static_ty_generics (ps : List GenericParam) : List String :=
  ps.filterMap fun p =>
    match p with
    | .typeP n => some n
    | .constP n => some n
    | .lifetimeP _ => none

def mkGenerated (n : String) (gens : List GenericParam) (vs : List Variant)
    (defs : List AuxDef) (dflt : String) : Generated :=
  { enumName := n
    renderMatch := make_render_impl n gens vs "render" []
    renderIntoMatch := make_render_impl n gens vs "render_into" [.var "writer"]
    extensionSource := dflt
    sizeHintSource := dflt
    mimeTypeSource := dflt
    staticTyGenerics := static_ty_generics gens
    auxDefs := defs
    display :=
      { callee := "askama::Template::render_into"
        selfArg := "self"
        sinkArg := "f"
        mapErrToUnitFmtError := true } }

/-- `derive_enum_template` (lib.rs lines 89-196).  Non-enum inputs fail at
the `struct`/`union` token; then the union-scope attribute scan runs, then
`make_variant_definitions`; `default_variant_name.unwrap_or_else(||
variant_definitions[0].ident)` panics by indexing an empty vector when no
default variant was recorded and no variant exists. -/
def derive_enum_template (ast : DeriveInput) : MacroResult :=
  match ast.data with
  | .structData sp => .err ⟨sp, enumOnlyMsg⟩
  | .unionData sp => .err ⟨sp, enumOnlyMsg⟩
  | .enumData vs =>
    match scanTemplateAttrs dupTypeMsg ast.attrs with
    | .error d => .err d
    | .ok globalMeta =>
      match mvdGo ast.ident ast.generics globalMeta 0 none vs with
      | .error d => .err d
      | .ok (defs, dOut) =>
        match dOut.or (defs.head?.map (·.ident)) with
        | none => .indexOutOfBounds
        | some dflt => .ok (mkGenerated ast.ident ast.generics vs defs dflt)

/-! ### Specification-side definitions

These re-state, in the words of the specification and of the claims, what
the generated code is supposed to look like; the claim theorems compare
them with the output of `derive_enum_template`. -/

/-- A variant carries a template annotation of its own. -/
def hasLocalTemplate (v : Variant) : Bool := v.attrs.any fun a => isTemplateAttr a

/-- The auxiliary name of the first variant (by declaration order, starting
at index `i`) that has no variant-level template annotation of its own. -/
def specFirstNoLocal (e : String) : Nat → List Variant → Option String
  | _, [] => none
  | i, v :: vs =>
    if hasLocalTemplate v then specFirstNoLocal e (i + 1) vs
    else some (variantAuxName e i v.ident)

/-- Claim C1: the auxiliary type whose constants the union-level metadata
copies — the first variant without a local annotation, or the first variant
if every variant has its own. -/
def specDefaultMetadataSource (e : String) (vs : List Variant) : Option String :=
  match specFirstNoLocal e 0 vs with
  | some s => some s
  | none => vs.head?.map fun v => variantAuxName e 0 v.ident

/-- Claim C4: the effective template specification is its own first
template annotation if present, otherwise the union-level one. -/
def specEffectiveMeta (gl : Option Attr) (v : Variant) : Option Attr :=
  (v.attrs.find? fun a => isTemplateAttr a).or gl

/-- Placeholder attribute; never the result of a successful resolution. -/
def junkAttr : Attr := ⟨false, "", 0, ""⟩

/-- Total form of `specEffectiveMeta`, used to state which attribute ends up
attached to an auxiliary definition when generation succeeds. -/
def resolvedMetaD (gl : Option Attr) (v : Variant) : Attr :=
  (specEffectiveMeta gl v).getD junkAttr

/-- Claim C4: resolve every variant in order; a variant with neither a local
nor a union-level annotation is a fatal error at the location of that variant. -/
def specResolveMetas (gl : Option Attr) : List Variant → Except Diag (List Attr)
  | [] => .ok []
  | v :: vs =>
    match specEffectiveMeta gl v with
    | none => .error ⟨v.identSpan, needTemplateMsg⟩
    | some m => (specResolveMetas gl vs).map fun l => m :: l

/-- Claim C2: the dispatch arm for one variant — destructure the fields into
the positional bindings, construct the auxiliary value from exactly those
bindings plus one phantom marker, and invoke the entry-point method with the
extra arguments. -/
def specDispatchArm (auxN : String) (instG : List String) (meth : String)
    (extra : List ArgE) (v : Variant) : Arm :=
  match v.fields with
  | .namedF fs =>
    let binds := (List.range fs.length).map tmpBindName
    { pat := .structP ("Self::" ++ v.ident) ((fs.map fun f => f.name).zip binds)
      body :=
        { recv := .structC auxN instG
            (((fs.map fun f => f.name).zip (binds.map ArgE.var)) ++ [(auxN, ArgE.phantomData)])
          meth := meth
          args := extra } }
  | .unnamedF ts =>
    let binds := (List.range ts.length).map tmpBindName
    { pat := .tupleP ("Self::" ++ v.ident) binds
      body :=
        { recv := .callC auxN instG (binds.map ArgE.var ++ [ArgE.phantomData])
          meth := meth
          args := extra } }
  | .unitF =>
    { pat := .pathP ("Self::" ++ v.ident)
      body := { recv := .callC auxN instG [ArgE.phantomData], meth := meth, args := extra } }

/-- Claim C3: the lifetime given to the auxiliary type of one variant, named
deterministically from the union and variant identity. -/
def specAuxLifetime (e : String) (i : Nat) (v : Variant) : String :=
  variantAuxName e i v.ident

/-- Claim C3: the field list of the auxiliary type of one variant — every
original field type `F` rewritten to a reference under the variant lifetime, in the original order (names
preserved for named fields), exactly one phantom marker field appended, and
a unit variant materialized as a single field holding only the marker. -/
def specAuxFields (e : String) (gens : List GenericParam) (i : Nat) (v : Variant) : AuxFields :=
  let lt := specAuxLifetime e i v
  let ph := RTy.phantom lt e gens
  match v.fields with
  | .namedF fs => .named ((fs.map fun f => (f.name, RTy.ref lt f.ty)) ++ [(variantAuxName e i v.ident, ph)])
  | .unnamedF ts => .unnamed ((ts.map fun t => RTy.ref lt t) ++ [ph])
  | .unitF => .unnamed [ph]

/-! ### Generic-argument token grammar (claim C9)

A Rust generic-argument list between `::<` and `>` is a comma-separated
sequence of arguments; each emitted parameter ident is a single token here.
`GenericArgListWF` captures the well-formed token sequences: empty, one
argument, or an argument followed by a comma and a further non-empty
well-formed list. -/

inductive GToken
  | ident (s : String)
  | comma
deriving DecidableEq

/-- The tokens `derive_enum_template` puts between `::<` and `>` of the
three static metadata constants (lib.rs lines 142-154, 171-176). -/
def turbofishArgTokens (ps : List GenericParam) : List GToken :=
  (static_ty_generics ps).map GToken.ident

inductive GenericArgListWF : List GToken → Prop
  | nil : GenericArgListWF []
  | single (s : String) : GenericArgListWF [GToken.ident s]
  | more (s : String) (rest : List GToken) : GenericArgListWF rest → rest ≠ [] →
      GenericArgListWF (GToken.ident s :: GToken.comma :: rest)

def isTypeOrConst : GenericParam → Bool
  | .typeP _ => true
  | .constP _ => true
  | .lifetimeP _ => false

/-! ### Accessors over `MacroResult` used by the claim statements -/

def MacroResult.isOk : MacroResult → Bool
  | .ok _ => true
  | _ => false

def resultMetadataSources : MacroResult → Option (String × String × String)
  | .ok g => some (g.extensionSource, g.sizeHintSource, g.mimeTypeSource)
  | _ => none

def resultRenderArms : MacroResult → List Arm
  | .ok g => g.renderMatch.arms
  | _ => []

def resultRenderIntoArms : MacroResult → List Arm
  | .ok g => g.renderIntoMatch.arms
  | _ => []

def resultScrutinees : MacroResult → Option (String × String)
  | .ok g => some (g.renderMatch.scrutinee, g.renderIntoMatch.scrutinee)
  | _ => none

def resultAuxPairs : MacroResult → List (String × AuxFields)
  | .ok g => g.auxDefs.map fun d => (d.lifetime, d.fields)
  | _ => []

def resultAuxLifetimes : MacroResult → List String
  | .ok g => g.auxDefs.map fun d => d.lifetime
  | _ => []

def resultAuxNames : MacroResult → List String
  | .ok g => g.auxDefs.map fun d => d.ident
  | _ => []

def resultResolvedMetas : MacroResult → Except Diag (List Attr)
  | .ok g => .ok (g.auxDefs.map fun d => d.templateMeta)
  | .err d => .error d
  | .indexOutOfBounds => .error ⟨0, "index out of bounds"⟩

def resultDisplay : MacroResult → Option DisplayBody
  | .ok g => some g.display
  | _ => none

/-- The template attributes attached to the auxiliary definitions produced by
`make_variant_definitions`, or its error. -/
def mvdToMetas : Except Diag (List AuxDef × Option String) → Except Diag (List Attr)
  | .error d => .error d
  | .ok (defs, _) => .ok (defs.map fun x => x.templateMeta)

/-- Decidable form of "the attribute scan of this scope succeeds". -/
def scanOkB (msg : String) (attrs : List Attr) : Bool :=
  match scanTemplateAttrs msg attrs with
  | .ok _ => true
  | .error _ => false

/-- Decidable form of "the attribute scan succeeds and finds an attribute". -/
def scanOkSomeB (msg : String) (attrs : List Attr) : Bool :=
  match scanTemplateAttrs msg attrs with
  | .ok (some _) => true
  | _ => false

/-- A pattern that is not the catch-all wildcard. -/
def patNotWild : RPat → Bool
  | .wild => false
  | _ => true

/-- No arm of the list is a catch-all arm. -/
def armsNoWild (l : List Arm) : Bool := l.all fun a => patNotWild a.pat

/-- Whether a comma token occurs in a token list. -/
def hasComma : List GToken → Bool
  | [] => false
  | .comma :: _ => true
  | .ident _ :: ts => hasComma ts

/-! ### Concrete inputs used by witnesses and counterexamples -/

/-- A well-shaped `#[template(...)]` attribute whose path sits at span `s`. -/
def tA (s : Nat) : Attr := ⟨true, "template", s, "ext = \x22html\x22, source = \x22src\x22"⟩

def exVariants : List Variant :=
  [⟨"A", 7, [], .unitF⟩,
   ⟨"B", 8, [tA 5], .namedF [⟨"x", "u8"⟩, ⟨"y", "u16"⟩]⟩,
   ⟨"C", 9, [], .unnamedF ["u32"]⟩]

def exInput : DeriveInput := ⟨"E", [.typeP "T"], [tA 0], .enumData exVariants⟩

def cxNeedInput : DeriveInput := ⟨"E", [], [], .enumData [⟨"A", 7, [], .unitF⟩]⟩

def cxDupInput : DeriveInput :=
  ⟨"E", [], [tA 5, tA 9], .enumData [⟨"A", 7, [], .unitF⟩]⟩

def cxZeroVariantsDup : DeriveInput := ⟨"E", [], [tA 0, tA 1], .enumData []⟩

def cxCollideA : DeriveInput :=
  ⟨"A", [], [tA 0], .enumData [⟨"P", 1, [], .unitF⟩, ⟨"x_2_y", 2, [], .unitF⟩]⟩

def cxCollideB : DeriveInput :=
  ⟨"A_1_x", [], [tA 0], .enumData
    [⟨"P", 1, [], .unitF⟩, ⟨"Q", 2, [], .unitF⟩, ⟨"y", 3, [], .unitF⟩]⟩

def wDupVariant : Variant := ⟨"A", 3, [tA 1, tA 2], .unitF⟩

/-! ### Lemmas about decimal digit strings -/

theorem charDigitVal_digitChar : ∀ m, m < 10 → charDigitVal (Nat.digitChar m) = m := by
  decide

theorem isDigit_digitChar : ∀ m, m < 10 → (Nat.digitChar m).isDigit = true := by
  decide

theorem toDecCore_acc (fuel : Nat) : ∀ (n : Nat) (acc : List Char),
    toDecCore fuel n acc = toDecCore fuel n [] ++ acc := by
  induction fuel with
  | zero => intro n acc; simp [toDecCore]
  | succ k ih =>
    intro n acc
    simp only [toDecCore]
    by_cases h : n / 10 = 0
    · simp [h]
    · simp only [if_neg h]
      rw [ih (n / 10) (Nat.digitChar (n % 10) :: acc), ih (n / 10) [Nat.digitChar (n % 10)]]
      simp

theorem fromDigits_append_one (l : List Char) (c : Char) :
    fromDigits (l ++ [c]) = 10 * fromDigits l + charDigitVal c := by
  simp [fromDigits, List.foldl_append]

theorem toDecCore_val (fuel : Nat) : ∀ n, n < fuel → fromDigits (toDecCore fuel n []) = n := by
  induction fuel with
  | zero => intro n h; omega
  | succ k ih =>
    intro n h
    simp only [toDecCore]
    by_cases h0 : n / 10 = 0
    · have hn : n < 10 := by omega
      simp only [if_pos h0]
      have : fromDigits [Nat.digitChar (n % 10)] = charDigitVal (Nat.digitChar (n % 10)) := by
        simp [fromDigits]
      rw [this, charDigitVal_digitChar _ (Nat.mod_lt _ (by omega))]
      omega
    · simp only [if_neg h0]
      rw [toDecCore_acc, fromDigits_append_one,
        ih (n / 10) (by omega), charDigitVal_digitChar _ (Nat.mod_lt _ (by omega))]
      omega

theorem natDecimalDigits_val (n : Nat) : fromDigits (natDecimalDigits n) = n :=
  toDecCore_val (n + 1) n (by omega)

theorem natDecimalDigits_inj {a b : Nat} (h : natDecimalDigits a = natDecimalDigits b) :
    a = b := by
  have ha := natDecimalDigits_val a
  have hb := natDecimalDigits_val b
  rw [h] at ha
  omega

theorem toDecCore_digits (fuel : Nat) : ∀ (n : Nat) (acc : List Char),
    (∀ c ∈ acc, c.isDigit = true) → ∀ c ∈ toDecCore fuel n acc, c.isDigit = true := by
  induction fuel with
  | zero => intro n acc hacc; simpa [toDecCore] using hacc
  | succ k ih =>
    intro n acc hacc c hc
    simp only [toDecCore] at hc
    by_cases h0 : n / 10 = 0
    · simp only [if_pos h0] at hc
      rcases List.mem_cons.mp hc with h | h
      · subst h; exact isDigit_digitChar _ (Nat.mod_lt _ (by omega))
      · exact hacc _ h
    · simp only [if_neg h0] at hc
      refine ih (n / 10) _ ?_ c hc
      intro d hd
      rcases List.mem_cons.mp hd with h | h
      · subst h; exact isDigit_digitChar _ (Nat.mod_lt _ (by omega))
      · exact hacc _ h

theorem natDecimalDigits_isDigit (n : Nat) :
    ∀ c ∈ natDecimalDigits n, c.isDigit = true :=
  toDecCore_digits (n + 1) n [] (by intro c hc; cases hc)

/-- Concatenating an all-digit run, an underscore separator and a tail is
unambiguous: the first underscore ends the digit run. -/
theorem digits_sep_unambig : ∀ (l1 l2 m1 m2 : List Char),
    (∀ c ∈ l1, c.isDigit = true) → (∀ c ∈ l2, c.isDigit = true) →
    l1 ++ '_' :: m1 = l2 ++ '_' :: m2 → l1 = l2 ∧ m1 = m2 := by
  intro l1
  induction l1 with
  | nil =>
    intro l2 m1 m2 _ h2 heq
    cases l2 with
    | nil => simpa using heq
    | cons c t =>
      exfalso
      simp only [List.nil_append, List.cons_append, List.cons.injEq] at heq
      have hd : c.isDigit = true := h2 c (List.mem_cons_self c t)
      rw [← heq.1] at hd
      simp [Char.isDigit] at hd
  | cons c t ih =>
    intro l2 m1 m2 h1 h2 heq
    cases l2 with
    | nil =>
      exfalso
      simp only [List.nil_append, List.cons_append, List.cons.injEq] at heq
      have hd : c.isDigit = true := h1 c (List.mem_cons_self c t)
      rw [heq.1] at hd
      simp [Char.isDigit] at hd
    | cons c2 t2 =>
      simp only [List.cons_append, List.cons.injEq] at heq
      obtain ⟨rfl, heq2⟩ := heq
      obtain ⟨ht, hm⟩ := ih t2 m1 m2
        (fun d hd => h1 d (List.mem_cons_of_mem _ hd))
        (fun d hd => h2 d (List.mem_cons_of_mem _ hd)) heq2
      exact ⟨by rw [ht], hm⟩

theorem string_data_append (s t : String) : (s ++ t).data = s.data ++ t.data := rfl

/-! ### Lemmas about the attribute scan loops -/

theorem ftmGo_some_ok (msg : String) : ∀ (attrs : List Attr) (a : Attr) (r : Option Attr),
    ftmGo msg (some a) attrs = .ok r → r = some a := by
  intro attrs
  induction attrs with
  | nil =>
    intro a r h
    simp only [ftmGo] at h
    exact (Except.ok.injEq _ _ ▸ congrArg id h : some a = r).symm ▸ rfl
  | cons b bs ih =>
    intro a r h
    by_cases hb : isTemplateAttr b
    · simp [ftmGo, hb] at h
    · simp only [ftmGo, if_neg hb] at h
      exact ih a r h

theorem ftmGo_none_ok (msg : String) : ∀ (attrs : List Attr) (r : Option Attr),
    ftmGo msg none attrs = .ok r → r = attrs.find? fun a => isTemplateAttr a := by
  intro attrs
  induction attrs with
  | nil =>
    intro r h
    simp only [ftmGo] at h
    simp only [List.find?_nil]
    cases h
    rfl
  | cons b bs ih =>
    intro r h
    by_cases hb : isTemplateAttr b
    · simp only [ftmGo, if_pos hb] at h
      rw [List.find?_cons_of_pos _ hb]
      exact ftmGo_some_ok msg bs b r h
    · simp only [ftmGo, if_neg hb] at h
      rw [List.find?_cons_of_neg _ hb]
      exact ih r h

theorem ftmGo_skip (msg : String) : ∀ (pre rest : List Attr) (acc : Option Attr),
    (∀ a ∈ pre, isTemplateAttr a = false) →
    ftmGo msg acc (pre ++ rest) = ftmGo msg acc rest := by
  intro pre
  induction pre with
  | nil => intro rest acc _; rfl
  | cons b bs ih =>
    intro rest acc hpre
    have hb : isTemplateAttr b = false := hpre b (List.mem_cons_self b bs)
    simp only [List.cons_append, ftmGo, hb, Bool.false_eq_true, if_false]
    exact ih rest acc fun a ha => hpre a (List.mem_cons_of_mem _ ha)

theorem scan_ok_find (msg : String) (attrs : List Attr) (r : Option Attr)
    (h : scanTemplateAttrs msg attrs = .ok r) :
    r = attrs.find? fun a => isTemplateAttr a :=
  ftmGo_none_ok msg attrs r h

/-- The duplicate-annotation error: with a template-free prefix, a first
template attribute, a template-free middle and a second template attribute,
the scan fails at the second occurrence with the scope message. -/
theorem scan_dup (msg : String) (pre mid post : List Attr) (a1 a2 : Attr)
    (hpre : ∀ a ∈ pre, isTemplateAttr a = false)
    (hmid : ∀ a ∈ mid, isTemplateAttr a = false)
    (h1 : isTemplateAttr a1 = true) (h2 : isTemplateAttr a2 = true) :
    scanTemplateAttrs msg (pre ++ a1 :: (mid ++ a2 :: post)) = .error ⟨a2.pathSpan, msg⟩ := by
  unfold scanTemplateAttrs
  rw [ftmGo_skip msg pre _ none hpre]
  simp only [ftmGo, if_pos h1]
  rw [ftmGo_skip msg mid _ (some a1) hmid]
  simp [ftmGo, h2]

theorem hasLocalTemplate_eq_isSome (v : Variant) :
    hasLocalTemplate v = (v.attrs.find? fun a => isTemplateAttr a).isSome := by
  cases hf : v.attrs.find? fun a => isTemplateAttr a with
  | none =>
    have hnone := List.find?_eq_none.mp hf
    simp only [hasLocalTemplate, Option.isSome_none]
    rw [List.any_eq_false]
    exact fun x hx => by simpa using hnone x hx
  | some a =>
    have hp := List.find?_some hf
    have hmem := List.mem_of_find?_eq_some hf
    simp only [hasLocalTemplate, Option.isSome_some]
    rw [List.any_eq_true]
    exact ⟨a, hmem, hp⟩

/-! ### Characterization of `make_variant_definitions` -/

theorem mvdGo_ok (e : String) (gens : List GenericParam) (gl : Option Attr) :
    ∀ (vs : List Variant) (i : Nat) (dflt : Option String)
      (defs : List AuxDef) (dOut : Option String),
    mvdGo e gens gl i dflt vs = .ok (defs, dOut) →
    defs = (enumFromL i vs).map (fun p => mkAuxDef e gens p.1 p.2 (resolvedMetaD gl p.2))
      ∧ dOut = dflt.or (specFirstNoLocal e i vs) := by
  intro vs
  induction vs with
  | nil =>
    intro i dflt defs dOut h
    simp only [mvdGo] at h
    cases h
    constructor
    · rfl
    · cases dflt <;> rfl
  | cons v vs ih =>
    intro i dflt defs dOut h
    simp only [mvdGo] at h
    cases hscan : scanTemplateAttrs dupVarMsg v.attrs with
    | error d => rw [hscan] at h; cases h
    | ok lm =>
      rw [hscan] at h
      dsimp only at h
      have hlm : lm = v.attrs.find? fun a => isTemplateAttr a :=
        scan_ok_find dupVarMsg v.attrs lm hscan
      cases hor : lm.or gl with
      | none => rw [hor] at h; cases h
      | some meta =>
        rw [hor] at h
        dsimp only at h
        cases hrec : mvdGo e gens gl (i + 1)
            (if lm.isNone && dflt.isNone then some (variantAuxName e i v.ident) else dflt) vs with
        | error d => rw [hrec] at h; cases h
        | ok p =>
          obtain ⟨rest, dOut2⟩ := p
          rw [hrec] at h
          dsimp only at h
          injection h with h1
          injection h1 with hdefs0 hdout0
          subst hdefs0
          subst hdout0
          obtain ⟨hdefs, hdflt⟩ := ih (i + 1) _ rest dOut2 hrec
          have hmeta : resolvedMetaD gl v = meta := by
            simp only [resolvedMetaD, specEffectiveMeta, ← hlm, hor, Option.getD_some]
          constructor
          · simp only [enumFromL, List.map_cons, hmeta, hdefs]
          · rw [hdflt]
            cases hl : lm with
            | none =>
              have hloc : hasLocalTemplate v = false := by
                rw [hasLocalTemplate_eq_isSome, ← hlm, hl, Option.isSome_none]
              simp only [specFirstNoLocal, hloc, Bool.false_eq_true, if_false]
              cases dflt <;> simp [hl, Option.or]
            | some a =>
              have hloc : hasLocalTemplate v = true := by
                rw [hasLocalTemplate_eq_isSome, ← hlm, hl, Option.isSome_some]
              simp only [specFirstNoLocal, hloc, if_true]
              cases dflt <;> simp [hl, Option.or]

/-! ### Positional enumeration -/

theorem enumFromL_fst_le {α : Type} : ∀ (l : List α) (k : Nat) (x : Nat × α),
    x ∈ enumFromL k l → k ≤ x.1 := by
  intro l
  induction l with
  | nil => intro k x hx; cases hx
  | cons a t ih =>
    intro k x hx
    rcases List.mem_cons.mp hx with h | h
    · subst h; exact Nat.le_refl k
    · exact Nat.le_of_succ_le (ih (k + 1) x h)

theorem enumFromL_fst_lt {α : Type} : ∀ (l : List α) (k : Nat),
    (enumFromL k l).Pairwise fun a b => a.1 < b.1 := by
  intro l
  induction l with
  | nil => intro k; exact List.Pairwise.nil
  | cons a t ih =>
    intro k
    refine List.Pairwise.cons ?_ (ih (k + 1))
    intro b hb
    exact Nat.lt_of_lt_of_le (Nat.lt_succ_self k) (enumFromL_fst_le t (k + 1) b hb)

theorem enumFromL_length {α : Type} : ∀ (l : List α) (k : Nat),
    (enumFromL k l).length = l.length := by
  intro l
  induction l with
  | nil => intro k; rfl
  | cons a t ih => intro k; simp [enumFromL, ih]

/-- Unfolding equation for `derive_enum_template` on an enum input. -/
theorem derive_enum_eq (n : String) (gens : List GenericParam) (attrs : List Attr)
    (vs : List Variant) :
    derive_enum_template ⟨n, gens, attrs, .enumData vs⟩ =
      match scanTemplateAttrs dupTypeMsg attrs with
      | .error d => .err d
      | .ok gl =>
        match mvdGo n gens gl 0 none vs with
        | .error d => .err d
        | .ok (defs, dOut) =>
          match dOut.or (defs.head?.map (·.ident)) with
          | none => .indexOutOfBounds
          | some dflt => .ok (mkGenerated n gens vs defs dflt) := rfl

/-- Within a single enum, the generated auxiliary type name determines the
variant index and the variant name. -/
theorem variantAuxName_inj (e v1 v2 : String) (i1 i2 : Nat)
    (h : variantAuxName e i1 v1 = variantAuxName e i2 v2) : i1 = i2 ∧ v1 = v2 := by
  have hd : (variantAuxName e i1 v1).data = (variantAuxName e i2 v2).data := by rw [h]
  simp only [variantAuxName, string_data_append, natToDecimal, List.append_assoc] at hd
  have hd2 : natDecimalDigits i1 ++ '_' :: v1.data
      = natDecimalDigits i2 ++ '_' :: v2.data := by
    have h3 := List.append_cancel_left (List.append_cancel_left hd)
    simpa using h3
  obtain ⟨hdig, hv⟩ := digits_sep_unambig _ _ _ _
    (natDecimalDigits_isDigit i1) (natDecimalDigits_isDigit i2) hd2
  exact ⟨natDecimalDigits_inj hdig, congrArg String.mk hv⟩

/-! ### Inversion of a successful derivation -/

theorem derive_ok_inv (n : String) (gens : List GenericParam) (attrs : List Attr)
    (vs : List Variant) (g : Generated)
    (h : derive_enum_template ⟨n, gens, attrs, .enumData vs⟩ = .ok g) :
    ∃ gl defs dOut dflt,
      scanTemplateAttrs dupTypeMsg attrs = .ok gl ∧
      mvdGo n gens gl 0 none vs = .ok (defs, dOut) ∧
      dOut.or (defs.head?.map (·.ident)) = some dflt ∧
      g = mkGenerated n gens vs defs dflt := by
  rw [derive_enum_eq] at h
  cases hscan : scanTemplateAttrs dupTypeMsg attrs with
  | error d => rw [hscan] at h; cases h
  | ok gl =>
    rw [hscan] at h
    dsimp only at h
    cases hmvd : mvdGo n gens gl 0 none vs with
    | error d => rw [hmvd] at h; cases h
    | ok p =>
      obtain ⟨defs, dOut⟩ := p
      rw [hmvd] at h
      dsimp only at h
      cases hor : dOut.or (defs.head?.map (·.ident)) with
      | none => rw [hor] at h; cases h
      | some dflt =>
        rw [hor] at h
        dsimp only at h
        injection h with h1
        exact ⟨gl, defs, dOut, dflt, rfl, hmvd, hor, h1.symm⟩

/-! ### The dispatch arms -/

theorem zip_swap_names : ∀ (fs : List NamedField) (ts : List String),
    (ts.zip fs).map (fun p => (p.2.name, p.1)) = (fs.map fun f => f.name).zip ts := by
  intro fs
  induction fs with
  | nil => intro ts; cases ts <;> rfl
  | cons f fs ih =>
    intro ts
    cases ts with
    | nil => rfl
    | cons t ts => simp [ih]

theorem zip_swap_vars : ∀ (fs : List NamedField) (ts : List String),
    (ts.zip fs).map (fun p => (p.2.name, ArgE.var p.1))
      = (fs.map fun f => f.name).zip (ts.map ArgE.var) := by
  intro fs
  induction fs with
  | nil => intro ts; cases ts <;> rfl
  | cons f fs ih =>
    intro ts
    cases ts with
    | nil => rfl
    | cons t ts => simp [ih]

theorem make_arm_eq_spec (auxN : String) (instG : List String) (meth : String)
    (args : List ArgE) (v : Variant) :
    make_arm auxN instG meth args v = specDispatchArm auxN instG meth args v := by
  cases hf : v.fields with
  | namedF fs =>
    simp only [make_arm, specDispatchArm, hf]
    rw [zip_swap_names, zip_swap_vars]
  | unnamedF ts => simp only [make_arm, specDispatchArm, hf]
  | unitF => simp only [make_arm, specDispatchArm, hf]

theorem pairwise_ne_auxNames (e : String) (vs : List Variant) :
    ((enumFromL 0 vs).map fun p => variantAuxName e p.1 p.2.ident).Pairwise (· ≠ ·) := by
  refine List.Pairwise.map _ ?_ (enumFromL_fst_lt vs 0)
  intro a b hab heq
  have h1 := (variantAuxName_inj e a.2.ident b.2.ident a.1 b.1 heq).1
  omega

/-! ### Variant-level resolution versus the specification rule (claim C4) -/

theorem scanOkB_ok {msg : String} {attrs : List Attr} (h : scanOkB msg attrs = true) :
    ∃ lm, scanTemplateAttrs msg attrs = .ok lm := by
  unfold scanOkB at h
  cases hs : scanTemplateAttrs msg attrs with
  | error d => rw [hs] at h; cases h
  | ok lm => exact ⟨lm, rfl⟩

theorem scanOkSomeB_some {msg : String} {attrs : List Attr}
    (h : scanOkSomeB msg attrs = true) :
    ∃ a, scanTemplateAttrs msg attrs = .ok (some a) := by
  unfold scanOkSomeB at h
  cases hs : scanTemplateAttrs msg attrs with
  | error d => rw [hs] at h; cases h
  | ok lm =>
    cases lm with
    | none => rw [hs] at h; cases h
    | some a => exact ⟨a, rfl⟩

theorem mvd_metas_eq (e : String) (gens : List GenericParam) (gl : Option Attr) :
    ∀ (vs : List Variant), (∀ v ∈ vs, scanOkB dupVarMsg v.attrs = true) →
    ∀ (i : Nat) (dflt : Option String),
      mvdToMetas (mvdGo e gens gl i dflt vs) = specResolveMetas gl vs := by
  intro vs
  induction vs with
  | nil => intro _ i dflt; rfl
  | cons v vs ih =>
    intro hok i dflt
    obtain ⟨lm, hscan⟩ := scanOkB_ok (hok v (List.mem_cons_self v vs))
    have hlm : lm = v.attrs.find? fun a => isTemplateAttr a :=
      scan_ok_find dupVarMsg v.attrs lm hscan
    have heff : specEffectiveMeta gl v = lm.or gl := by
      rw [specEffectiveMeta, hlm]
    simp only [mvdGo, hscan]
    simp only [specResolveMetas, heff]
    cases hor : lm.or gl with
    | none => rfl
    | some meta =>
      dsimp only
      have ihv := ih (fun u hu => hok u (List.mem_cons_of_mem v hu)) (i + 1)
        (if lm.isNone && dflt.isNone then some (variantAuxName e i v.ident) else dflt)
      cases hrec : mvdGo e gens gl (i + 1)
          (if lm.isNone && dflt.isNone then some (variantAuxName e i v.ident) else dflt) vs with
      | error d =>
        rw [hrec] at ihv
        simp only [mvdToMetas] at ihv
        simp only [← ihv, mvdToMetas]
        rfl
      | ok p =>
        obtain ⟨rest, dOut2⟩ := p
        rw [hrec] at ihv
        simp only [mvdToMetas] at ihv
        simp only [← ihv, mvdToMetas, List.map_cons, Except.map_ok]
        rfl

/-! ### Skipping self-annotated variants (claim C5) -/

theorem mvdGo_step_some (e : String) (gens : List GenericParam) (gl : Option Attr)
    (i : Nat) (dflt : Option String) (u : Variant) (rest : List Variant) (a : Attr)
    (ha : scanTemplateAttrs dupVarMsg u.attrs = .ok (some a)) :
    mvdGo e gens gl i dflt (u :: rest) =
      match mvdGo e gens gl (i + 1) dflt rest with
      | .error d => .error d
      | .ok (r, dOut) => .ok (mkAuxDef e gens i u a :: r, dOut) := by
  simp only [mvdGo, ha]
  rfl

theorem mvdGo_step_error (e : String) (gens : List GenericParam) (gl : Option Attr)
    (i : Nat) (dflt : Option String) (u : Variant) (rest : List Variant) (d : Diag)
    (ha : scanTemplateAttrs dupVarMsg u.attrs = .error d) :
    mvdGo e gens gl i dflt (u :: rest) = .error d := by
  simp only [mvdGo, ha]

theorem mvdGo_error_after_locals (e : String) (gens : List GenericParam) (gl : Option Attr) :
    ∀ (us : List Variant), (∀ u ∈ us, scanOkSomeB dupVarMsg u.attrs = true) →
    ∀ (tail : List Variant) (i : Nat) (dflt : Option String) (d : Diag),
    mvdGo e gens gl (i + us.length) dflt tail = .error d →
    mvdGo e gens gl i dflt (us ++ tail) = .error d := by
  intro us
  induction us with
  | nil =>
    intro _ tail i dflt d h
    simpa using h
  | cons u us ih =>
    intro hus tail i dflt d h
    obtain ⟨a, ha⟩ := scanOkSomeB_some (hus u (List.mem_cons_self u us))
    rw [List.cons_append, mvdGo_step_some e gens gl i dflt u (us ++ tail) a ha]
    have harith : i + 1 + us.length = i + (u :: us).length := by
      simp [List.length_cons]; omega
    have htail : mvdGo e gens gl (i + 1 + us.length) dflt tail = .error d := by
      rw [harith]; exact h
    rw [ih (fun x hx => hus x (List.mem_cons_of_mem u hx)) tail (i + 1) dflt d htail]

/-! ### The static generics turbofish (claim C9) -/

theorem comma_not_in_turbofish (ps : List GenericParam) :
    GToken.comma ∉ turbofishArgTokens ps := by
  simp [turbofishArgTokens]

theorem wf_map_ident_iff (l : List String) :
    GenericArgListWF (l.map GToken.ident) ↔ l.length ≤ 1 := by
  constructor
  · intro h
    cases l with
    | nil => simp
    | cons a t =>
      cases t with
      | nil => simp
      | cons b t2 =>
        exfalso
        cases h
  · intro h
    cases l with
    | nil => exact GenericArgListWF.nil
    | cons a t =>
      cases t with
      | nil => exact GenericArgListWF.single a
      | cons b t2 => simp at h

theorem static_ty_generics_length (ps : List GenericParam) :
    (static_ty_generics ps).length = ps.countP fun p => isTypeOrConst p := by
  induction ps with
  | nil => rfl
  | cons p t ih =>
    cases p with
    | lifetimeP s =>
      have h1 : static_ty_generics (GenericParam.lifetimeP s :: t) = static_ty_generics t := rfl
      rw [h1, List.countP_cons, ih]
      simp [isTypeOrConst]
    | typeP s =>
      have h1 : static_ty_generics (GenericParam.typeP s :: t) = s :: static_ty_generics t := rfl
      rw [h1, List.countP_cons, List.length_cons, ih]
      simp [isTypeOrConst]
    | constP s =>
      have h1 : static_ty_generics (GenericParam.constP s :: t) = s :: static_ty_generics t := rfl
      rw [h1, List.countP_cons, List.length_cons, ih]
      simp [isTypeOrConst]

theorem hasComma_map_ident : ∀ (l : List String), hasComma (l.map GToken.ident) = false := by
  intro l
  induction l with
  | nil => rfl
  | cons a t ih => simpa [hasComma] using ih

/-! ### Remaining small helpers -/

theorem isOk_exists {r : MacroResult} (h : r.isOk = true) : ∃ g, r = .ok g := by
  cases r with
  | ok g => exact ⟨g, rfl⟩
  | err d => cases h
  | indexOutOfBounds => cases h

theorem patNotWild_specArm (auxN : String) (instG : List String) (meth : String)
    (extra : List ArgE) (v : Variant) :
    patNotWild (specDispatchArm auxN instG meth extra v).pat = true := by
  cases hf : v.fields <;> simp [specDispatchArm, hf, patNotWild]

theorem armsNoWild_specArms (e : String) (instG : List String) (meth : String)
    (extra : List ArgE) : ∀ (l : List (Nat × Variant)),
    armsNoWild (l.map fun p =>
      specDispatchArm (variantAuxName e p.1 p.2.ident) instG meth extra p.2) = true := by
  intro l
  induction l with
  | nil => rfl
  | cons p t ih =>
    simp only [List.map_cons, armsNoWild, List.all_cons] at ih ⊢
    rw [patNotWild_specArm, ih]
    rfl

theorem all_not_template {l : List Attr} (h : l.all (fun a => !isTemplateAttr a) = true) :
    ∀ a ∈ l, isTemplateAttr a = false := by
  intro a ha
  have := List.all_eq_true.mp h a ha
  simpa using this

/-! ## Claim theorems -/

/-- Claim C7: every non-enum input (struct or union) is rejected with the
fatal diagnostic anchored at the struct/union token, before any annotation
extraction (the result does not depend on the attribute list), and no code
is generated. -/
theorem c7_non_enum_rejected (n : String) (gens : List GenericParam)
    (attrs attrs2 : List Attr) (sp : Nat) :
    derive_enum_template ⟨n, gens, attrs, .structData sp⟩ = .err ⟨sp, enumOnlyMsg⟩ ∧
    derive_enum_template ⟨n, gens, attrs, .unionData sp⟩ = .err ⟨sp, enumOnlyMsg⟩ ∧
    derive_enum_template ⟨n, gens, attrs, .structData sp⟩
      = derive_enum_template ⟨n, gens, attrs2, .structData sp⟩ ∧
    derive_enum_template ⟨n, gens, attrs, .unionData sp⟩
      = derive_enum_template ⟨n, gens, attrs2, .unionData sp⟩ :=
  ⟨rfl, rfl, rfl, rfl⟩

/-- Claim C9: the turbofish of the three static constants concatenates the
type and const parameter idents with no separating commas and omits
lifetimes; it is a well-formed generic-argument list exactly when the enum
has at most one type/const parameter. -/
theorem c9_turbofish_wellformed (ps : List GenericParam) :
    hasComma (turbofishArgTokens ps) = false ∧
    (GenericArgListWF (turbofishArgTokens ps)
      ↔ ps.countP (fun p => isTypeOrConst p) ≤ 1) := by
  constructor
  · exact hasComma_map_ident (static_ty_generics ps)
  · rw [show turbofishArgTokens ps = (static_ty_generics ps).map GToken.ident from rfl,
      wf_map_ident_iff, static_ty_generics_length]

/-- Claim C8 (amended): the auxiliary type name follows the pattern
`_Enum_index_Variant`, and within a single enum it determines the variant
index and name, so distinct variants of one enum always receive distinct
names; across different enums the names can collide (see the
counterexample). -/
theorem c8_aux_name_injective (e v1 v2 : String) (i1 i2 : Nat)
    (h : variantAuxName e i1 v1 = variantAuxName e i2 v2) :
    variantAuxName e i1 v1 = "_" ++ e ++ "_" ++ natToDecimal i1 ++ "_" ++ v1 ∧
    i1 = i2 ∧ v1 = v2 :=
  ⟨rfl, variantAuxName_inj e v1 v2 i1 i2 h⟩

theorem c8_aux_name_injective_witness :
    variantAuxName "E" 3 "B" = "_" ++ "E" ++ "_" ++ natToDecimal 3 ++ "_" ++ "B" ∧
    3 = 3 ∧ "B" = "B" :=
  c8_aux_name_injective "E" "B" "B" 3 3 rfl

/-- Claim C8 is refuted across enums: enum `A` with second variant `x_2_y`
and enum `A_1_x` with third variant `y` are distinct variants of distinct
enums, yet both auxiliary types are named `_A_1_x_2_y`. -/
theorem c8_cross_enum_collision :
    resultAuxNames (derive_enum_template cxCollideA) = ["_A_0_P", "_A_1_x_2_y"] ∧
    resultAuxNames (derive_enum_template cxCollideB)
      = ["_A_1_x_0_P", "_A_1_x_1_Q", "_A_1_x_2_y"] ∧
    (cxCollideA.ident == cxCollideB.ident) = false := by
  exact ⟨by decide, by decide, by decide⟩

/-- Claim C10 (amended): an enum with zero variants whose union-scope
attribute scan succeeds produces neither code nor a diagnostic: the
transformer panics indexing `variant_definitions[0]`. -/
theorem c10_zero_variants_panic (n : String) (gens : List GenericParam)
    (attrs : List Attr) (gl : Option Attr)
    (hg : scanTemplateAttrs dupTypeMsg attrs = .ok gl) :
    derive_enum_template ⟨n, gens, attrs, .enumData []⟩ = .indexOutOfBounds := by
  rw [derive_enum_eq, hg]
  rfl

theorem c10_zero_variants_panic_witness :
    derive_enum_template ⟨"E", [], [], .enumData []⟩ = .indexOutOfBounds :=
  c10_zero_variants_panic "E" [] [] none rfl

/-- Claim C10 is refuted as stated: a zero-variant enum with a duplicated
union-level template annotation returns a compile-time diagnostic, not a
panic. -/
theorem c10_dup_attr_diagnostic :
    derive_enum_template cxZeroVariantsDup = .err ⟨1, dupTypeMsg⟩ ∧
    decide (derive_enum_template cxZeroVariantsDup = .indexOutOfBounds) = false := by
  exact ⟨by decide, by decide⟩

/-- Claim C4 (amended): when the union-scope scan yields `gl`, no variant
has a duplicated local annotation and there is at least one variant, the
attributes attached to the auxiliary types (or the failure) are exactly the
specification resolution: local annotation if present, otherwise `gl`, and
if neither exists a fatal error `need a #[template] attribute` at the
location of the variant itself, with no generated code. -/
theorem c4_resolution (n : String) (gens : List GenericParam) (attrs : List Attr)
    (vs : List Variant) (gl : Option Attr)
    (hg : scanTemplateAttrs dupTypeMsg attrs = .ok gl)
    (hnodup : vs.all (fun v => scanOkB dupVarMsg v.attrs) = true)
    (hne : vs.isEmpty = false) :
    resultResolvedMetas (derive_enum_template ⟨n, gens, attrs, .enumData vs⟩)
      = specResolveMetas gl vs := by
  rw [derive_enum_eq, hg]
  dsimp only
  have hall : ∀ v ∈ vs, scanOkB dupVarMsg v.attrs = true := fun v hv =>
    List.all_eq_true.mp hnodup v hv
  have hmetas := mvd_metas_eq n gens gl vs hall 0 none
  cases hmvd : mvdGo n gens gl 0 none vs with
  | error d =>
    rw [hmvd] at hmetas
    simp only [mvdToMetas] at hmetas
    rw [← hmetas]
    rfl
  | ok p =>
    obtain ⟨defs, dOut⟩ := p
    rw [hmvd] at hmetas
    simp only [mvdToMetas] at hmetas
    obtain ⟨hdefs, _⟩ := mvdGo_ok n gens gl vs 0 none defs dOut hmvd
    cases vs with
    | nil => cases hne
    | cons v vs2 =>
      have hdefs2 : defs = mkAuxDef n gens 0 v (resolvedMetaD gl v) ::
          ((enumFromL 1 vs2).map fun p => mkAuxDef n gens p.1 p.2 (resolvedMetaD gl p.2)) := by
        rw [hdefs]; rfl
      rw [hdefs2]
      cases dOut with
      | none =>
        dsimp only [Option.or, Option.map, List.head?]
        rw [← hmetas, hdefs2]
        rfl
      | some s =>
        dsimp only [Option.or]
        rw [← hmetas, hdefs2]
        rfl

theorem c4_resolution_witness :
    resultResolvedMetas (derive_enum_template ⟨"E", [], [],
        .enumData [⟨"A", 1, [tA 4], .unitF⟩, ⟨"B", 9, [], .unitF⟩]⟩)
      = specResolveMetas none [⟨"A", 1, [tA 4], .unitF⟩, ⟨"B", 9, [], .unitF⟩] :=
  c4_resolution "E" [] [] [⟨"A", 1, [tA 4], .unitF⟩, ⟨"B", 9, [], .unitF⟩] none
    rfl (by decide) (by decide)

/-- Claim C4 is refuted as stated: the diagnostic the code emits for a
variant with no resolvable annotation is `need a #[template] attribute`,
not `need a template annotation`. -/
theorem c4_message_refuted :
    resultResolvedMetas (derive_enum_template cxNeedInput)
      = .error ⟨7, needTemplateMsg⟩ ∧
    (needTemplateMsg == "need a template annotation") = false := by
  exact ⟨rfl, by decide⟩

/-- Claim C5 (amended): a second template annotation on the same scope is a
fatal error pointing at the second occurrence; the union-scope message is
`cannot have more than one #[template] attribute for a type`, the
variant-scope message is `cannot have more than one #[template] attribute
for a variant`, and the two messages differ — there is no single shared
message for both scopes. -/
theorem c5_duplicate_annotations
    (n1 : String) (g1 : List GenericParam) (pre mid post : List Attr) (a1 a2 : Attr)
    (vs1 : List Variant)
    (hpre : pre.all (fun a => !isTemplateAttr a) = true)
    (hmid : mid.all (fun a => !isTemplateAttr a) = true)
    (h1 : isTemplateAttr a1 = true) (h2 : isTemplateAttr a2 = true)
    (n2 : String) (g2 : List GenericParam) (attrs2 : List Attr) (gl2 : Option Attr)
    (us rest : List Variant) (v : Variant)
    (vpre vmid vpost : List Attr) (b1 b2 : Attr)
    (hg2 : scanTemplateAttrs dupTypeMsg attrs2 = .ok gl2)
    (hus : us.all (fun u => scanOkSomeB dupVarMsg u.attrs) = true)
    (hvattrs : v.attrs = vpre ++ b1 :: (vmid ++ b2 :: vpost))
    (hvpre : vpre.all (fun a => !isTemplateAttr a) = true)
    (hvmid : vmid.all (fun a => !isTemplateAttr a) = true)
    (hb1 : isTemplateAttr b1 = true) (hb2 : isTemplateAttr b2 = true) :
    derive_enum_template ⟨n1, g1, pre ++ a1 :: (mid ++ a2 :: post), .enumData vs1⟩
      = .err ⟨a2.pathSpan, dupTypeMsg⟩ ∧
    derive_enum_template ⟨n2, g2, attrs2, .enumData (us ++ v :: rest)⟩
      = .err ⟨b2.pathSpan, dupVarMsg⟩ ∧
    (dupTypeMsg == dupVarMsg) = false := by
  refine ⟨?_, ?_, by decide⟩
  · rw [derive_enum_eq,
      scan_dup dupTypeMsg pre mid post a1 a2 (all_not_template hpre) (all_not_template hmid) h1 h2]
  · rw [derive_enum_eq, hg2]
    dsimp only
    have hvscan : scanTemplateAttrs dupVarMsg v.attrs = .error ⟨b2.pathSpan, dupVarMsg⟩ := by
      rw [hvattrs]
      exact scan_dup dupVarMsg vpre vmid vpost b1 b2
        (all_not_template hvpre) (all_not_template hvmid) hb1 hb2
    have hhead : mvdGo n2 g2 gl2 us.length none (v :: rest)
        = .error ⟨b2.pathSpan, dupVarMsg⟩ :=
      mvdGo_step_error n2 g2 gl2 us.length none v rest _ hvscan
    have hfull : mvdGo n2 g2 gl2 0 none (us ++ v :: rest)
        = .error ⟨b2.pathSpan, dupVarMsg⟩ := by
      refine mvdGo_error_after_locals n2 g2 gl2 us ?_ (v :: rest) 0 none _ ?_
      · exact fun u hu => List.all_eq_true.mp hus u hu
      · simpa using hhead
    rw [hfull]

theorem c5_duplicate_annotations_witness :
    derive_enum_template ⟨"E", [], [] ++ tA 5 :: ([] ++ tA 9 :: []), .enumData []⟩
      = .err ⟨9, dupTypeMsg⟩ ∧
    derive_enum_template ⟨"F", [], [], .enumData ([] ++ wDupVariant :: [])⟩
      = .err ⟨2, dupVarMsg⟩ ∧
    (dupTypeMsg == dupVarMsg) = false :=
  c5_duplicate_annotations "E" [] [] [] [] (tA 5) (tA 9) []
    (by decide) (by decide) (by decide) (by decide)
    "F" [] [] none [] [] wDupVariant [] [] [] (tA 1) (tA 2)
    rfl (by decide) (by decide) (by decide) (by decide) (by decide) (by decide)

/-- Claim C5 is refuted as stated: neither scope emits the claimed message
`cannot have more than one template annotation for this scope`, and the two
scopes do not share one message. -/
theorem c5_claim_messages_refuted :
    derive_enum_template cxDupInput = .err ⟨9, dupTypeMsg⟩ ∧
    (dupTypeMsg == "cannot have more than one template annotation for this scope") = false ∧
    (dupVarMsg == "cannot have more than one template annotation for this scope") = false ∧
    (dupTypeMsg == dupVarMsg) = false := by
  exact ⟨by decide, by decide, by decide, by decide⟩

/-- Claim C6: the generated Display implementation delegates to
`render_into` with the formatter as the sink, and the `map_err` adapter
collapses every rendering failure to the single payload-less `fmt::Error`
value, discarding which failure occurred. -/
theorem c6_display_adapter (n : String) (gens : List GenericParam) (attrs : List Attr)
    (vs : List Variant) (ε : Type) (e1 e2 : ε)
    (hok : (derive_enum_template ⟨n, gens, attrs, .enumData vs⟩).isOk = true) :
    resultDisplay (derive_enum_template ⟨n, gens, attrs, .enumData vs⟩)
      = some ⟨"askama::Template::render_into", "self", "f", true⟩ ∧
    displayMapErr (Except.error e1 : Except ε Unit) = Except.error () ∧
    displayMapErr (Except.error e2 : Except ε Unit)
      = displayMapErr (Except.error e1 : Except ε Unit) := by
  obtain ⟨g, hg⟩ := isOk_exists hok
  obtain ⟨gl, defs, dOut, dflt, _, _, _, hgen⟩ := derive_ok_inv n gens attrs vs g hg
  refine ⟨?_, rfl, rfl⟩
  rw [hg, hgen]
  rfl

theorem c6_display_adapter_witness :
    resultDisplay (derive_enum_template ⟨"E", [.typeP "T"], [tA 0], .enumData exVariants⟩)
      = some ⟨"askama::Template::render_into", "self", "f", true⟩ ∧
    displayMapErr (Except.error 0 : Except Nat Unit) = Except.error () ∧
    displayMapErr (Except.error 1 : Except Nat Unit)
      = displayMapErr (Except.error 0 : Except Nat Unit) :=
  c6_display_adapter "E" [.typeP "T"] [tA 0] exVariants Nat 0 1 (by decide)

/-- Claim C1: on every successful derivation, the three static metadata
constants (extension, size hint, MIME type) all read the constants of the
auxiliary type of the first variant without a variant-level template
annotation, or of the first variant when every variant has its own. -/
theorem c1_metadata_sources (n : String) (gens : List GenericParam) (attrs : List Attr)
    (vs : List Variant)
    (hok : (derive_enum_template ⟨n, gens, attrs, .enumData vs⟩).isOk = true) :
    resultMetadataSources (derive_enum_template ⟨n, gens, attrs, .enumData vs⟩)
      = (specDefaultMetadataSource n vs).map fun s => (s, s, s) := by
  obtain ⟨g, hg⟩ := isOk_exists hok
  obtain ⟨gl, defs, dOut, dflt, hscan, hmvd, hor, hgen⟩ := derive_ok_inv n gens attrs vs g hg
  obtain ⟨hdefs, hdOut⟩ := mvdGo_ok n gens gl vs 0 none defs dOut hmvd
  have hdOut2 : dOut = specFirstNoLocal n 0 vs := by rw [hdOut]; rfl
  rw [hg, hgen]
  have hL : resultMetadataSources (MacroResult.ok (mkGenerated n gens vs defs dflt))
      = some (dflt, dflt, dflt) := rfl
  rw [hL]
  cases hcase : specFirstNoLocal n 0 vs with
  | some s =>
    have hds : dOut = some s := by rw [hdOut2, hcase]
    rw [hds] at hor
    injection hor with h2
    rw [specDefaultMetadataSource, hcase, ← h2]
    rfl
  | none =>
    have hdo : dOut = none := by rw [hdOut2, hcase]
    rw [hdo] at hor
    cases vs with
    | nil =>
      exfalso
      have hdefs0 : defs = [] := by rw [hdefs]; rfl
      rw [hdefs0] at hor
      cases hor
    | cons v vs2 =>
      have hhead : defs.head?.map (·.ident) = some (variantAuxName n 0 v.ident) := by
        rw [hdefs]; rfl
      rw [hhead] at hor
      injection hor with h2
      rw [specDefaultMetadataSource, hcase, ← h2]
      rfl

theorem c1_metadata_sources_witness :
    resultMetadataSources (derive_enum_template ⟨"E", [.typeP "T"], [tA 0], .enumData exVariants⟩)
      = (specDefaultMetadataSource "E" exVariants).map (fun s => (s, s, s)) :=
  c1_metadata_sources "E" [.typeP "T"] [tA 0] exVariants (by decide)

/-- Claim C2: on every successful derivation, both dispatch matches (one
for `render` with no extra arguments, one for `render_into` passing the
writer) match on `self` with exactly one arm per declared variant in
declaration order, no catch-all arm, and each arm destructures the variant,
builds the auxiliary value from those bindings plus the phantom marker and
invokes the entry-point method on it. -/
theorem c2_dispatch_matches (n : String) (gens : List GenericParam) (attrs : List Attr)
    (vs : List Variant)
    (hok : (derive_enum_template ⟨n, gens, attrs, .enumData vs⟩).isOk = true) :
    resultScrutinees (derive_enum_template ⟨n, gens, attrs, .enumData vs⟩)
      = some ("self", "self") ∧
    resultRenderArms (derive_enum_template ⟨n, gens, attrs, .enumData vs⟩)
      = ((enumFromL 0 vs).map fun p =>
          specDispatchArm (variantAuxName n p.1 p.2.ident) (instTurbofish gens)
            "render" [] p.2) ∧
    resultRenderIntoArms (derive_enum_template ⟨n, gens, attrs, .enumData vs⟩)
      = ((enumFromL 0 vs).map fun p =>
          specDispatchArm (variantAuxName n p.1 p.2.ident) (instTurbofish gens)
            "render_into" [ArgE.var "writer"] p.2) ∧
    (resultRenderArms (derive_enum_template ⟨n, gens, attrs, .enumData vs⟩)).length
      = vs.length ∧
    (resultRenderIntoArms (derive_enum_template ⟨n, gens, attrs, .enumData vs⟩)).length
      = vs.length ∧
    armsNoWild (resultRenderArms (derive_enum_template ⟨n, gens, attrs, .enumData vs⟩))
      = true ∧
    armsNoWild (resultRenderIntoArms (derive_enum_template ⟨n, gens, attrs, .enumData vs⟩))
      = true := by
  obtain ⟨g, hg⟩ := isOk_exists hok
  obtain ⟨gl, defs, dOut, dflt, _, _, _, hgen⟩ := derive_ok_inv n gens attrs vs g hg
  have harms : ∀ (meth : String) (args : List ArgE),
      (make_render_impl n gens vs meth args).arms
        = (enumFromL 0 vs).map fun p =>
            specDispatchArm (variantAuxName n p.1 p.2.ident) (instTurbofish gens)
              meth args p.2 := by
    intro meth args
    simp only [make_render_impl]
    have hfun : (fun (p : Nat × Variant) =>
        make_arm (variantAuxName n p.1 p.2.ident) (instTurbofish gens) meth args p.2)
        = fun p => specDispatchArm (variantAuxName n p.1 p.2.ident) (instTurbofish gens)
            meth args p.2 := by
      funext p
      exact make_arm_eq_spec _ _ _ _ _
    rw [hfun]
  rw [hg, hgen]
  have hR : resultRenderArms (MacroResult.ok (mkGenerated n gens vs defs dflt))
      = (enumFromL 0 vs).map fun p =>
          specDispatchArm (variantAuxName n p.1 p.2.ident) (instTurbofish gens)
            "render" [] p.2 := harms "render" []
  have hRI : resultRenderIntoArms (MacroResult.ok (mkGenerated n gens vs defs dflt))
      = (enumFromL 0 vs).map fun p =>
          specDispatchArm (variantAuxName n p.1 p.2.ident) (instTurbofish gens)
            "render_into" [ArgE.var "writer"] p.2 := harms "render_into" [ArgE.var "writer"]
  refine ⟨rfl, hR, hRI, ?_, ?_, ?_, ?_⟩
  · rw [hR, List.length_map, enumFromL_length]
  · rw [hRI, List.length_map, enumFromL_length]
  · rw [hR]; exact armsNoWild_specArms n (instTurbofish gens) "render" [] (enumFromL 0 vs)
  · rw [hRI]
    exact armsNoWild_specArms n (instTurbofish gens) "render_into" [ArgE.var "writer"]
      (enumFromL 0 vs)

theorem c2_dispatch_matches_witness :
    resultScrutinees (derive_enum_template ⟨"E", [.typeP "T"], [tA 0], .enumData exVariants⟩)
      = some ("self", "self") ∧
    resultRenderArms (derive_enum_template ⟨"E", [.typeP "T"], [tA 0], .enumData exVariants⟩)
      = ((enumFromL 0 exVariants).map fun p =>
          specDispatchArm (variantAuxName "E" p.1 p.2.ident) (instTurbofish [.typeP "T"])
            "render" [] p.2) ∧
    resultRenderIntoArms (derive_enum_template ⟨"E", [.typeP "T"], [tA 0], .enumData exVariants⟩)
      = ((enumFromL 0 exVariants).map fun p =>
          specDispatchArm (variantAuxName "E" p.1 p.2.ident) (instTurbofish [.typeP "T"])
            "render_into" [ArgE.var "writer"] p.2) ∧
    (resultRenderArms (derive_enum_template ⟨"E", [.typeP "T"], [tA 0], .enumData exVariants⟩)).length
      = exVariants.length ∧
    (resultRenderIntoArms (derive_enum_template ⟨"E", [.typeP "T"], [tA 0], .enumData exVariants⟩)).length
      = exVariants.length ∧
    armsNoWild (resultRenderArms (derive_enum_template ⟨"E", [.typeP "T"], [tA 0], .enumData exVariants⟩))
      = true ∧
    armsNoWild (resultRenderIntoArms (derive_enum_template ⟨"E", [.typeP "T"], [tA 0], .enumData exVariants⟩))
      = true :=
  c2_dispatch_matches "E" [.typeP "T"] [tA 0] exVariants (by decide)

/-- Claim C3: on every successful derivation, the auxiliary type of each variant
rewrites every original field type `F` to a reference under the per-variant
lifetime, preserves field order and names, appends exactly one phantom
marker field referencing that lifetime and the enum with its original
generics, materializes unit variants as a single phantom-only field, and the
per-variant lifetimes are pairwise distinct. -/
theorem c3_aux_types (n : String) (gens : List GenericParam) (attrs : List Attr)
    (vs : List Variant)
    (hok : (derive_enum_template ⟨n, gens, attrs, .enumData vs⟩).isOk = true) :
    resultAuxPairs (derive_enum_template ⟨n, gens, attrs, .enumData vs⟩)
      = ((enumFromL 0 vs).map fun p =>
          (specAuxLifetime n p.1 p.2, specAuxFields n gens p.1 p.2)) ∧
    (resultAuxLifetimes (derive_enum_template ⟨n, gens, attrs, .enumData vs⟩)).Pairwise
      (· ≠ ·) := by
  obtain ⟨g, hg⟩ := isOk_exists hok
  obtain ⟨gl, defs, dOut, dflt, hscan, hmvd, hor, hgen⟩ := derive_ok_inv n gens attrs vs g hg
  obtain ⟨hdefs, _⟩ := mvdGo_ok n gens gl vs 0 none defs dOut hmvd
  rw [hg, hgen]
  have hP : resultAuxPairs (MacroResult.ok (mkGenerated n gens vs defs dflt))
      = defs.map fun d => (d.lifetime, d.fields) := rfl
  have hLt : resultAuxLifetimes (MacroResult.ok (mkGenerated n gens vs defs dflt))
      = defs.map fun d => d.lifetime := rfl
  constructor
  · rw [hP, hdefs, List.map_map]
    have hfun : ((fun (d : AuxDef) => (d.lifetime, d.fields)) ∘ fun (p : Nat × Variant) =>
        mkAuxDef n gens p.1 p.2 (resolvedMetaD gl p.2))
        = fun p => (specAuxLifetime n p.1 p.2, specAuxFields n gens p.1 p.2) := by
      funext p
      cases hf : p.2.fields <;>
        simp [mkAuxDef, specAuxFields, specAuxLifetime, Function.comp, hf]
    rw [hfun]
  · rw [hLt, hdefs, List.map_map]
    have hfun : ((fun (d : AuxDef) => d.lifetime) ∘ fun (p : Nat × Variant) =>
        mkAuxDef n gens p.1 p.2 (resolvedMetaD gl p.2))
        = fun p => variantAuxName n p.1 p.2.ident := by
      funext p
      rfl
    rw [hfun]
    exact pairwise_ne_auxNames n vs

theorem c3_aux_types_witness :
    resultAuxPairs (derive_enum_template ⟨"E", [.typeP "T"], [tA 0], .enumData exVariants⟩)
      = ((enumFromL 0 exVariants).map fun p =>
          (specAuxLifetime "E" p.1 p.2, specAuxFields "E" [.typeP "T"] p.1 p.2)) ∧
    (resultAuxLifetimes (derive_enum_template ⟨"E", [.typeP "T"], [tA 0], .enumData exVariants⟩)).Pairwise
      (· ≠ ·) :=
  c3_aux_types "E" [.typeP "T"] [tA 0] exVariants (by decide)

end AskamaEnum
